import Mathlib

/-!
# Verification of `biotite.sequence.align.matrix` (`SubstitutionMatrix`)

Shallow embedding of `src/src/biotite/sequence/align/matrix.py`.

Symbols are modelled as `String` (Python symbols are rendered through `str`
both by `__str__` and by the pairing-map keys relevant to the claims).
The dense numpy `int32` score table is modelled as a row-major
`List (List Int)` together with explicit 32-bit range/wrap arithmetic.
Fallible Python code (raising exceptions) is modelled with `Except Err`.
-/

set_option maxRecDepth 4096

deriving instance DecidableEq for Except

/-- Errors of the matrix core and the text codec.  They stand for the Python
exceptions raised by the corresponding code paths. -/
inductive Err where
  /-- `ValueError` from `__init__`: table dimensions disagree with the alphabet lengths. -/
  | shapeMismatch
  /-- `ValueError` from `__init__`: an entry equals a 32-bit integer extreme after `astype(np.int32)`. -/
  | overflowSuspected
  /-- `KeyError` from `_fill_with_matrix_dict`: the pairing map misses a symbol combination. -/
  | missingPairing (sym1 sym2 : String)
  /-- `OverflowError` from numpy when assigning an out-of-`int32`-range Python int to an `int32` cell. -/
  | valueOverflow (v : Int)
  /-- `AlphabetError` from `Alphabet.encode`: symbol not in the alphabet. -/
  | unknownSymbol (sym : String)
  /-- `IndexError` from numpy indexing outside the array bounds. -/
  | indexOutOfRange
  /-- `IndexError` from `lines[0]` in `dict_from_str` when no line survives filtering. -/
  | noHeader
  /-- `ValueError` from `np.array` on ragged (inhomogeneous) rows in `dict_from_str`. -/
  | raggedRows
  /-- `ValueError` from `.astype(int)` on a token that is not a valid integer literal. -/
  | invalidToken (tok : String)
deriving DecidableEq

/-- Modelled from the spec: the external `Alphabet` collaborator is an ordered
sequence of symbols; `encode` maps a symbol to its index, `decode` maps an
index to its symbol, equality is structural (element-wise on the symbol
sequence). -/
structure Alphabet where
  symbols : List String
deriving DecidableEq

/-- Number of symbols, `len(alphabet)`. -/
def Alphabet.length (al : Alphabet) : Nat :=
  al.symbols.length

/-- First index of `s` in `l` (`None` when absent). -/
def idxOf? (s : String) : List String → Option Nat
  | [] => none
  | x :: xs => if x = s then some 0 else (idxOf? s xs).map (· + 1)

/-- Modelled from the spec: `Alphabet.encode(symbol) → code`, failing when the
symbol is absent. -/
def Alphabet.encode (al : Alphabet) (s : String) : Option Nat :=
  idxOf? s al.symbols

/-- Modelled from the spec: `Alphabet.decode(code) → symbol`. -/
def Alphabet.decode (al : Alphabet) (code : Nat) : Option String :=
  al.symbols[code]?

/-- The immutable aggregate `(alphabet1, alphabet2, score table)`.
Structural equality of this Lean structure coincides with
`SubstitutionMatrix.__eq__` (both alphabets equal element-wise and
`np.array_equal` on the tables). -/
structure SubstitutionMatrix where
  alph1 : Alphabet
  alph2 : Alphabet
  score_matrix : List (List Int)
deriving DecidableEq

/-- `np.iinfo(np.int32).max`. -/
def INT32_MAX : Int := 2147483647

/-- `np.iinfo(np.int32).min`. -/
def INT32_MIN : Int := -2147483648

/-- `v` is representable as a signed 32-bit integer. -/
def inInt32Range (v : Int) : Prop :=
  INT32_MIN ≤ v ∧ v ≤ INT32_MAX

instance (v : Int) : Decidable (inInt32Range v) := by
  unfold inInt32Range; infer_instance

/-- C-style cast to `int32`, as performed by `ndarray.astype(np.int32)`:
wrap-around modulo `2^32` into `[-2^31, 2^31)`. -/
def toInt32Wrap (v : Int) : Int :=
  (v + 2147483648) % 4294967296 - 2147483648

/-- Bounds-checked 2-D access `t[i, j]` (numpy indexing with non-negative
indices on a rectangular array). -/
def tableGet? (t : List (List Int)) (i j : Nat) : Option Int :=
  t[i]?.bind (fun row => row[j]?)

/-- Number of columns of a row-major table (the length of its first row). -/
def widthOf (t : List (List Int)) : Nat :=
  (t.head?.map List.length).getD 0

/-- Column `j` of a table (for a rectangular table with more than `j`
columns this collects `t[i][j]` for every row `i`). -/
def colAt (t : List (List Int)) (j : Nat) : List Int :=
  t.filterMap (fun row => row[j]?)

/-- `np.transpose` of a table whose ndarray shape has `ncols` columns.
(`ncols` is the intrinsic second shape component of the ndarray, which the
nested-list representation cannot recover when the table has zero rows.) -/
def npTranspose (t : List (List Int)) (ncols : Nat) : List (List Int) :=
  (List.range ncols).map (fun j => colAt t j)

/-- Class invariant established by every constructor: the table has shape
`(len(alphabet1), len(alphabet2))` and all entries are valid `int32` values. -/
def wellFormed (M : SubstitutionMatrix) : Prop :=
  M.score_matrix.length = M.alph1.length ∧
  (∀ r ∈ M.score_matrix, r.length = M.alph2.length) ∧
  (∀ r ∈ M.score_matrix, ∀ v ∈ r, inInt32Range v)

instance (M : SubstitutionMatrix) : Decidable (wellFormed M) := by
  unfold wellFormed; infer_instance

/-- Construction mode 1 (`__init__` with an `ndarray` argument): check the
shape against the alphabet lengths, cast to `int32`, and reject tables
containing either 32-bit extreme sentinel value.  The input is an integer
table by typing, so the `dtype` check of the source is always satisfied. -/
def fromTable (a1 a2 : Alphabet) (t : List (List Int)) : Except Err SubstitutionMatrix :=
  if t.length = a1.length ∧ ∀ r ∈ t, r.length = a2.length then
    if ∃ r ∈ t.map (fun r => r.map toInt32Wrap), ∃ v ∈ r, v = INT32_MAX ∨ v = INT32_MIN then
      .error .overflowSuspected
    else
      .ok ⟨a1, a2, t.map (fun r => r.map toInt32Wrap)⟩
  else
    .error .shapeMismatch

/-- A Python dict keyed by symbol pairs, as an association list with the
lookup semantics of `dict` (first matching key; keys are unique in any list
produced by `dict`-like insertion). -/
abbrev PairingMap := List ((String × String) × Int)

/-- `d[k]` lookup returning `none` on a missing key (`KeyError`). -/
def dictGet? (d : PairingMap) (k : String × String) : Option Int :=
  (d.find? (fun e => decide (e.1 = k))).map (fun e => e.2)

/-- `d[k] = v` with Python dict semantics: overwrite in place if the key is
present, otherwise append. -/
def dinsert (d : PairingMap) (k : String × String) (v : Int) : PairingMap :=
  if d.any (fun e => decide (e.1 = k)) then
    d.map (fun e => if e.1 = k then (k, v) else e)
  else
    d ++ [(k, v)]

/-- `mapM` for `Except`, spelt out: apply `f` left to right, stopping at the
first error (the early-abort behaviour of a Python loop that raises). -/
def exceptMapList (f : α → Except Err β) : List α → Except Err (List β)
  | [] => .ok []
  | x :: xs =>
    match f x with
    | .error e => .error e
    | .ok y =>
      match exceptMapList f xs with
      | .error e => .error e
      | .ok ys => .ok (y :: ys)

/-- One loop body iteration of `_fill_with_matrix_dict`:
`matrix[i, j] = int(matrix_dict[alph1.decode(i), alph2.decode(j)])`.
A missing key raises `KeyError`; assigning a Python int outside the `int32`
range to an `int32` cell raises `OverflowError` (numpy ≥ 1.24 semantics). -/
def fillCell (a1 a2 : Alphabet) (d : PairingMap) (i j : Nat) : Except Err Int :=
  match a1.decode i with
  | none => .error .indexOutOfRange
  | some s1 =>
    match a2.decode j with
    | none => .error .indexOutOfRange
    | some s2 =>
      match dictGet? d (s1, s2) with
      | none => .error (.missingPairing s1 s2)
      | some v => if inInt32Range v then .ok v else .error (.valueOverflow v)

/-- `_fill_with_matrix_dict`: row-major loop over all index pairs. -/
def fillWithMatrixDict (a1 a2 : Alphabet) (d : PairingMap) : Except Err (List (List Int)) :=
  exceptMapList
    (fun i => exceptMapList (fun j => fillCell a1 a2 d i j) (List.range a2.length))
    (List.range a1.length)

/-- Construction mode 2 (`__init__` with a `dict` argument): fill the table
from the pairing map.  Note: no sentinel-value check runs on this path. -/
def fromDict (a1 a2 : Alphabet) (d : PairingMap) : Except Err SubstitutionMatrix :=
  match fillWithMatrixDict a1 a2 d with
  | .error e => .error e
  | .ok t => .ok ⟨a1, a2, t⟩

/-- `get_score`: encode both symbols, then index the table directly. -/
def get_score (M : SubstitutionMatrix) (sym1 sym2 : String) : Except Err Int :=
  match M.alph1.encode sym1 with
  | none => .error (.unknownSymbol sym1)
  | some c1 =>
    match M.alph2.encode sym2 with
    | none => .error (.unknownSymbol sym2)
    | some c2 =>
      match tableGet? M.score_matrix c1 c2 with
      | none => .error .indexOutOfRange
      | some v => .ok v

/-- numpy index resolution along one axis of length `len`: non-negative
indices must be `< len`; negative indices wrap Python-style to `len + i`
when `-len ≤ i`, and raise `IndexError` otherwise. -/
def npIndex (len : Nat) (i : Int) : Option Nat :=
  if 0 ≤ i then
    if i < (len : Int) then some i.toNat else none
  else
    if -(len : Int) ≤ i then some ((len : Int) + i).toNat else none

/-- `get_score_by_code`: `self._matrix[code1, code2]` with numpy index
semantics on both axes. -/
def get_score_by_code (M : SubstitutionMatrix) (code1 code2 : Int) : Except Err Int :=
  match npIndex M.score_matrix.length code1 with
  | none => .error .indexOutOfRange
  | some i =>
    match M.score_matrix[i]? with
    | none => .error .indexOutOfRange
    | some row =>
      match npIndex row.length code2 with
      | none => .error .indexOutOfRange
      | some j =>
        match row[j]? with
        | none => .error .indexOutOfRange
        | some v => .ok v

/-- `is_symmetric`: structural alphabet equality and
`np.array_equal(matrix, np.transpose(matrix))` (shape plus element-wise
equality, which on rectangular nested lists is structural list equality). -/
def is_symmetric (M : SubstitutionMatrix) : Bool :=
  decide (M.alph1 = M.alph2) &&
    decide (M.score_matrix = npTranspose M.score_matrix (widthOf M.score_matrix))

/-- `transpose`: construct `SubstitutionMatrix(alph2, alph1, np.transpose(matrix))`
through mode 1.  The ndarray shape is `(len(alph1), len(alph2))` by the class
invariant, so the transposed ndarray has `len(alph2)` rows. -/
def SubstitutionMatrix.transpose (M : SubstitutionMatrix) : Except Err SubstitutionMatrix :=
  fromTable M.alph2 M.alph1 (npTranspose M.score_matrix M.alph2.length)

/-- Modelled from the spec: the external `Sequence` collaborator supplies its
alphabet and the array of symbol codes (`sequence.code`); the symbol at a
position is the decoding of the code at that position. -/
structure Sequence where
  alphabet : Alphabet
  code : List Nat
deriving DecidableEq

/-- The symbol at position `p` of the sequence (`sequence[p]`). -/
def Sequence.symbolAt (s : Sequence) (p : Nat) : Option String :=
  s.alphabet.decode (s.code.getD p 0)

/-- `np.repeat(a, k)`: each element repeated `k` times in place. -/
def npRepeat (a : List Nat) (k : Nat) : List Nat :=
  (a.map (List.replicate k)).flatten

/-- `np.tile(a, k)`: the whole list repeated `k` times. -/
def npTile (a : List Nat) (k : Nat) : List Nat :=
  (List.replicate k a).flatten

/-- `_cartesian_product(array1, array2)`: rows of
`np.transpose([np.repeat(array1, len(array2)), np.tile(array2, len(array1))])`. -/
def cartesianProduct (a1 a2 : List Nat) : List (Nat × Nat) :=
  (npRepeat a1 a2.length).zip (npTile a2 a1.length)

/-- `.reshape(n1, n2)` of a flat row-major list of length `n1 * n2`. -/
def npReshape (n1 n2 : Nat) (flat : List Int) : List (List Int) :=
  (List.range n1).map (fun i => (List.range n2).map (fun j => flat.getD (i * n2 + j) 0))

/-- Modelled from the spec: the positional alphabet of a length-`n` sequence
is the index range `[0, n)` (its "symbols" are the positions). -/
def positionalAlphabet (n : Nat) : Alphabet :=
  ⟨(List.range n).map (fun i => toString i)⟩

/-- Modelled from the spec: `PositionalSequence(sequence)` — a sequence over
the positional alphabet whose code at position `p` is `p` itself. -/
def positionalSequence (s : Sequence) : Sequence :=
  ⟨positionalAlphabet s.code.length, List.range s.code.length⟩

/-- `as_positional`: fancy-index the score table with the cartesian product of
the two code arrays (numpy raises `IndexError` on any out-of-bounds code),
reshape to `(len(seq1), len(seq2))`, and construct the positional matrix
through mode 1. -/
def as_positional (M : SubstitutionMatrix) (s1 s2 : Sequence) :
    Except Err (SubstitutionMatrix × Sequence × Sequence) :=
  let pos_seq1 := positionalSequence s1
  let pos_seq2 := positionalSequence s2
  let pairs := cartesianProduct s1.code s2.code
  match exceptMapList
      (fun p =>
        match tableGet? M.score_matrix p.1 p.2 with
        | none => .error Err.indexOutOfRange
        | some v => .ok v)
      pairs with
  | .error e => .error e
  | .ok flat =>
    match fromTable pos_seq1.alphabet pos_seq2.alphabet
        (npReshape s1.code.length s2.code.length flat) with
    | .error e => .error e
    | .ok pos_matrix => .ok (pos_matrix, pos_seq1, pos_seq2)

/-- `string.split("\n")`: split a character list at every occurrence of `c`,
keeping empty pieces. -/
def splitOnChar (c : Char) : List Char → List (List Char)
  | [] => [[]]
  | x :: xs =>
    let r := splitOnChar c xs
    if x = c then [] :: r else (x :: r.headD []) :: r.tail

/-- `str.strip()`: remove leading and trailing whitespace. -/
def trimChars (l : List Char) : List Char :=
  ((l.dropWhile Char.isWhitespace).reverse.dropWhile Char.isWhitespace).reverse

/-- Helper for `splitWS`: accumulate the current (reversed) token. -/
def splitWSAux : List Char → List Char → List (List Char)
  | [], acc => if acc = [] then [] else [acc.reverse]
  | x :: xs, acc =>
    if x.isWhitespace then
      if acc = [] then splitWSAux xs [] else acc.reverse :: splitWSAux xs []
    else
      splitWSAux xs (x :: acc)

/-- `str.split()`: split at runs of whitespace, discarding empty tokens. -/
def splitWS (l : List Char) : List (List Char) :=
  splitWSAux l []

/-- Digits-to-number parse; `none` when empty or a non-digit occurs. -/
def parseDigits : List Char → Option Nat
  | [] => none
  | [c] => if c.isDigit then some (c.toNat - 48) else none
  | c :: cs =>
    if c.isDigit then
      (parseDigits cs).map (fun n => (c.toNat - 48) * 10 ^ cs.length + n)
    else
      none

/-- `int(token)` as applied by `.astype(int)` to one token: an optional sign
followed by at least one digit; anything else raises `ValueError`. -/
def parseIntToken (t : List Char) : Except Err Int :=
  match t with
  | '+' :: rest =>
    match parseDigits rest with
    | some n => .ok (n : Int)
    | none => .error (.invalidToken (String.mk t))
  | '-' :: rest =>
    match parseDigits rest with
    | some n => .ok (-(n : Int))
    | none => .error (.invalidToken (String.mk t))
  | _ =>
    match parseDigits t with
    | some n => .ok (n : Int)
    | none => .error (.invalidToken (String.mk t))

/-- The line preprocessing of `dict_from_str`: split on newlines, strip each
line, drop lines that are empty or start with `#`. -/
def preprocessLines (s : String) : List (List Char) :=
  (((splitOnChar '\n') s.data).map trimChars).filter
    (fun l => !l.isEmpty && l.headD ' ' ≠ '#')

/-- The per-data-line score tokens of `dict_from_str`
(`line.split()[1:]` for each line after the header). -/
def scoreRows (s : String) : List (List (List Char)) :=
  match preprocessLines s with
  | [] => []
  | _ :: dataLines => dataLines.map (fun l => (splitWS l).tail)

/-- The nested dictionary-building loop at the end of `dict_from_str`:
`matrix_dict[(symbols1[i], symbols2[j])] = scores[i, j]` for all `i`, `j`,
with bounds-checked numpy access into the (transposed) score array. -/
def buildDict (symbols1 symbols2 : List String) (scoresT : List (List Int)) :
    Except Err PairingMap :=
  (List.range symbols1.length).foldlM
    (fun d i =>
      (List.range symbols2.length).foldlM
        (fun d j =>
          match tableGet? scoresT i j with
          | none => Except.error Err.indexOutOfRange
          | some v => Except.ok (dinsert d (symbols1.getD i "", symbols2.getD j "") v))
        d)
    []

/-- `dict_from_str`: parse NCBI-format matrix text into a pairing map.
Mirrors the source line by line: line preprocessing, row/column symbol
extraction, `np.array(...).astype(int)` (which rejects ragged rows, then
parses every token), `np.transpose`, and the dictionary-building loop. -/
def dict_from_str (s : String) : Except Err PairingMap :=
  match preprocessLines s with
  | [] => .error .noHeader
  | header :: dataLines =>
    let symbols1 := dataLines.map (fun l => String.mk ((splitWS l).headD []))
    let symbols2 := (splitWS header).map String.mk
    let rawRows := dataLines.map (fun l => (splitWS l).tail)
    if rawRows.all (fun r => r.length = (rawRows.headD []).length) then
      match exceptMapList (fun r => exceptMapList parseIntToken r) rawRows with
      | .error e => .error e
      | .ok scores => buildDict symbols1 symbols2 (npTranspose scores (widthOf scores))
    else
      .error .raggedRows

/-- Right-align a string in a field of width `w` (Python `f"{s:>w}"`). -/
def padLeft (w : Nat) (s : String) : String :=
  String.mk (List.replicate (w - s.length) ' ') ++ s

/-- The header line of `__str__`: `" "` followed by ` {symbol:>3}` for each
symbol of alphabet 2. -/
def headerLine (M : SubstitutionMatrix) : String :=
  M.alph2.symbols.foldl (fun acc sym => acc ++ " " ++ padLeft 3 sym) " "

/-- One data row of `__str__`: `{symbol:>1}` followed by ` {score:>3}` for
each column (the table access is in bounds by the class shape invariant). -/
def rowLine (M : SubstitutionMatrix) (i : Nat) : String :=
  (List.range M.alph2.length).foldl
    (fun acc j => acc ++ " " ++ padLeft 3 (toString ((tableGet? M.score_matrix i j).getD 0)))
    (padLeft 1 (M.alph1.symbols.getD i ""))

/-- `__str__`: header line, one line per alphabet-1 symbol, no trailing
newline (the source appends `"\n"` after every line and strips the last). -/
def matrixToText (M : SubstitutionMatrix) : String :=
  if M.alph1.length = 0 then
    headerLine M
  else
    headerLine M ++ "\n" ++
      String.intercalate "\n" ((List.range M.alph1.length).map (fun i => rowLine M i))

/-- The round-trip of the spec:
`buildFromPairingMap(textToPairingMap(matrixToText(M)))` with `M`'s own
alphabets. -/
def roundTrip (M : SubstitutionMatrix) : Except Err SubstitutionMatrix :=
  match dict_from_str (matrixToText M) with
  | .error e => .error e
  | .ok d => fromDict M.alph1 M.alph2 d

/-- A small asymmetric square matrix over equal alphabets, used as concrete
input in witnesses and counterexamples. -/
def sampleMatrix : SubstitutionMatrix :=
  ⟨⟨["A", "B"]⟩, ⟨["A", "B"]⟩, [[1, 2], [3, 4]]⟩

/-- The pairing map that builds `sampleMatrix` through construction mode 2. -/
def samplePairingMap : PairingMap :=
  [(("A", "A"), 1), (("A", "B"), 2), (("B", "A"), 3), (("B", "B"), 4)]

/-- A small rectangular matrix over two different alphabets. -/
def sampleRectMatrix : SubstitutionMatrix :=
  ⟨⟨["A", "B"]⟩, ⟨["C", "D"]⟩, [[1, 2], [3, 4]]⟩

/-- A sample sequence over alphabet `[A, B]` with codes `[0, 1, 0]`. -/
def sampleSeq1 : Sequence := ⟨⟨["A", "B"]⟩, [0, 1, 0]⟩

/-- A sample sequence over alphabet `[C, D]` with codes `[1, 0]`. -/
def sampleSeq2 : Sequence := ⟨⟨["C", "D"]⟩, [1, 0]⟩

/-! ## Lemmas about the embedding combinators -/

theorem getElem?_mem {α : Type} {l : List α} {n : Nat} {a : α} (h : l[n]? = some a) : a ∈ l := by
  obtain ⟨hn, he⟩ := List.getElem?_eq_some.mp h
  exact he ▸ List.getElem_mem hn

theorem mem_getElem? {α : Type} {l : List α} {a : α} (h : a ∈ l) : ∃ n : Nat, l[n]? = some a := by
  obtain ⟨n, hn⟩ := List.mem_iff_get?.mp h
  exact ⟨n, by simpa using hn⟩

theorem getElem?_lt_length {α : Type} {l : List α} {n : Nat} {a : α} (h : l[n]? = some a) :
    n < l.length := by
  obtain ⟨hn, -⟩ := List.getElem?_eq_some.mp h
  exact hn

theorem exceptMapList_ok {α β : Type} {f : α → Except Err β} :
    ∀ {l : List α} {ys : List β}, exceptMapList f l = .ok ys →
      ys.length = l.length ∧
      (∀ (k : Nat) (x : α), l[k]? = some x → ∃ y, ys[k]? = some y ∧ f x = .ok y) ∧
      (∀ (k : Nat) (y : β), ys[k]? = some y → ∃ x, l[k]? = some x ∧ f x = .ok y) := by
  intro l
  induction l with
  | nil =>
    intro ys h
    simp only [exceptMapList] at h
    cases h
    refine ⟨rfl, ?_, ?_⟩ <;> intro k x hx <;> simp at hx
  | cons x xs ih =>
    intro ys h
    simp only [exceptMapList] at h
    cases hfx : f x with
    | error e => rw [hfx] at h; exact Except.noConfusion h
    | ok y =>
      rw [hfx] at h
      cases hrec : exceptMapList f xs with
      | error e => rw [hrec] at h; exact Except.noConfusion h
      | ok zs =>
        rw [hrec] at h
        cases h
        obtain ⟨hlen, hfwd, hbwd⟩ := ih hrec
        refine ⟨by simp [hlen], ?_, ?_⟩
        · intro k z hz
          cases k with
          | zero =>
            rw [List.getElem?_cons_zero] at hz
            cases hz
            exact ⟨y, List.getElem?_cons_zero, hfx⟩
          | succ m =>
            rw [List.getElem?_cons_succ] at hz
            simp only [List.getElem?_cons_succ]
            exact hfwd m z hz
        · intro k z hz
          cases k with
          | zero =>
            rw [List.getElem?_cons_zero] at hz
            cases hz
            exact ⟨x, List.getElem?_cons_zero, hfx⟩
          | succ m =>
            rw [List.getElem?_cons_succ] at hz
            simp only [List.getElem?_cons_succ]
            exact hbwd m z hz

theorem exceptMapList_ok_of_mem {α β : Type} {f : α → Except Err β} {l : List α} {ys : List β}
    (h : exceptMapList f l = .ok ys) {x : α} (hx : x ∈ l) : ∃ y, f x = .ok y := by
  obtain ⟨k, hk⟩ := mem_getElem? hx
  obtain ⟨y, _, hy⟩ := (exceptMapList_ok h).2.1 k x hk
  exact ⟨y, hy⟩

theorem exceptMapList_mem_of_ok {α β : Type} {f : α → Except Err β} {l : List α} {ys : List β}
    (h : exceptMapList f l = .ok ys) {y : β} (hy : y ∈ ys) : ∃ x ∈ l, f x = .ok y := by
  obtain ⟨k, hk⟩ := mem_getElem? hy
  obtain ⟨x, hx, hfx⟩ := (exceptMapList_ok h).2.2 k y hk
  exact ⟨x, getElem?_mem hx, hfx⟩

theorem exceptMapList_error_of_mem {α β : Type} {f : α → Except Err β} :
    ∀ {l : List α} {x : α} {e : Err}, x ∈ l → f x = .error e →
      ∃ e2, exceptMapList f l = .error e2 := by
  intro l
  induction l with
  | nil => intro x e hx _; cases hx
  | cons z zs ih =>
    intro x e hx hfx
    rcases List.mem_cons.mp hx with rfl | hmem
    · exact ⟨e, by simp only [exceptMapList]; rw [hfx]⟩
    · cases hfz : f z with
      | error e2 => exact ⟨e2, by simp only [exceptMapList]; rw [hfz]⟩
      | ok y =>
        obtain ⟨e2, he2⟩ := ih hmem hfx
        exact ⟨e2, by simp only [exceptMapList]; rw [hfz, he2]⟩

theorem filterMap_all_some {α β : Type} {f : α → Option β} :
    ∀ {l : List α}, (∀ x ∈ l, (f x).isSome) →
      (l.filterMap f).length = l.length ∧ ∀ k : Nat, (l.filterMap f)[k]? = l[k]?.bind f := by
  intro l
  induction l with
  | nil =>
    intro _
    exact ⟨rfl, by intro k; simp⟩
  | cons x xs ih =>
    intro hall
    obtain ⟨y, hy⟩ := Option.isSome_iff_exists.mp (hall x (List.mem_cons_self x xs))
    obtain ⟨hlen, hget⟩ := ih (fun z hz => hall z (List.mem_cons_of_mem x hz))
    rw [List.filterMap_cons_some hy]
    refine ⟨by simp [hlen], ?_⟩
    intro k
    cases k with
    | zero => simp [hy]
    | succ m => simp [hget m]

theorem colAt_spec {t : List (List Int)} {n : Nat} (hw : ∀ r ∈ t, r.length = n) {j : Nat}
    (hj : j < n) :
    (colAt t j).length = t.length ∧
      ∀ i : Nat, (colAt t j)[i]? = t[i]?.bind (fun row => row[j]?) := by
  apply filterMap_all_some
  intro row hrow
  have hjr : j < row.length := by rw [hw row hrow]; exact hj
  rw [List.getElem?_eq_getElem hjr]
  rfl

theorem npTranspose_length (t : List (List Int)) (n : Nat) : (npTranspose t n).length = n := by
  simp [npTranspose]

theorem npTranspose_getElem? {t : List (List Int)} {n j : Nat} (hj : j < n) :
    (npTranspose t n)[j]? = some (colAt t j) := by
  simp [npTranspose, List.getElem?_map, List.getElem?_range hj]

theorem tableGet?_npTranspose {t : List (List Int)} {n : Nat} (hw : ∀ r ∈ t, r.length = n)
    {i j : Nat} (hj : j < n) :
    tableGet? (npTranspose t n) j i = tableGet? t i j := by
  unfold tableGet?
  rw [npTranspose_getElem? hj]
  exact (colAt_spec hw hj).2 i

theorem toInt32Wrap_eq_self {v : Int} (h : inInt32Range v) : toInt32Wrap v = v := by
  obtain ⟨h1, h2⟩ := h
  unfold INT32_MIN at h1
  unfold INT32_MAX at h2
  unfold toInt32Wrap
  rw [Int.emod_eq_of_lt (by omega) (by omega)]
  omega

theorem wrapTable_eq_self {t : List (List Int)} (h : ∀ r ∈ t, ∀ v ∈ r, inInt32Range v) :
    t.map (fun r => r.map toInt32Wrap) = t := by
  have hrow : ∀ r ∈ t, r.map toInt32Wrap = id r := by
    intro r hr
    have h1 : ∀ v ∈ r, toInt32Wrap v = id v := fun v hv => toInt32Wrap_eq_self (h r hr v hv)
    rw [List.map_congr_left h1, List.map_id]
    rfl
  rw [List.map_congr_left hrow, List.map_id]

theorem fromTable_ok {a1 a2 : Alphabet} {t : List (List Int)} {M : SubstitutionMatrix}
    (h : fromTable a1 a2 t = .ok M) :
    M = ⟨a1, a2, t.map (fun r => r.map toInt32Wrap)⟩ ∧
    t.length = a1.length ∧ (∀ r ∈ t, r.length = a2.length) ∧
    ¬ ∃ r ∈ M.score_matrix, ∃ v ∈ r, v = INT32_MAX ∨ v = INT32_MIN := by
  unfold fromTable at h
  split at h
  case isTrue hsh =>
    split at h
    case isTrue hsent => exact Except.noConfusion h
    case isFalse hsent =>
      cases h
      exact ⟨rfl, hsh.1, hsh.2, hsent⟩
  case isFalse hsh => exact Except.noConfusion h

theorem fromDict_ok_fill {a1 a2 : Alphabet} {d : PairingMap} {M : SubstitutionMatrix}
    (h : fromDict a1 a2 d = .ok M) :
    M.alph1 = a1 ∧ M.alph2 = a2 ∧ fillWithMatrixDict a1 a2 d = .ok M.score_matrix := by
  unfold fromDict at h
  cases hf : fillWithMatrixDict a1 a2 d with
  | error e => rw [hf] at h; exact Except.noConfusion h
  | ok t =>
    rw [hf] at h
    cases h
    exact ⟨rfl, rfl, rfl⟩

theorem fromDict_cell {a1 a2 : Alphabet} {d : PairingMap} {M : SubstitutionMatrix}
    (h : fromDict a1 a2 d = .ok M) {i j : Nat} (hi : i < a1.length) (hj : j < a2.length) :
    ∃ v, fillCell a1 a2 d i j = .ok v ∧ tableGet? M.score_matrix i j = some v := by
  obtain ⟨-, -, hfill⟩ := fromDict_ok_fill h
  unfold fillWithMatrixDict at hfill
  obtain ⟨row, hrow, hrowok⟩ := (exceptMapList_ok hfill).2.1 i i (List.getElem?_range hi)
  obtain ⟨v, hv, hcell⟩ := (exceptMapList_ok hrowok).2.1 j j (List.getElem?_range hj)
  refine ⟨v, hcell, ?_⟩
  unfold tableGet?
  rw [hrow]
  exact hv

theorem fillCell_ok {a1 a2 : Alphabet} {d : PairingMap} {i j : Nat} {v : Int}
    (h : fillCell a1 a2 d i j = .ok v) :
    ∃ s1 s2, a1.decode i = some s1 ∧ a2.decode j = some s2 ∧
      dictGet? d (s1, s2) = some v ∧ inInt32Range v := by
  unfold fillCell at h
  cases h1 : a1.decode i with
  | none => simp only [h1] at h; exact Except.noConfusion h
  | some s1 =>
    simp only [h1] at h
    cases h2 : a2.decode j with
    | none => simp only [h2] at h; exact Except.noConfusion h
    | some s2 =>
      simp only [h2] at h
      cases h3 : dictGet? d (s1, s2) with
      | none => simp only [h3] at h; exact Except.noConfusion h
      | some w =>
        simp only [h3] at h
        split at h
        case isTrue hin =>
          cases h
          exact ⟨s1, s2, rfl, rfl, h3, hin⟩
        case isFalse hin => exact Except.noConfusion h

theorem idxOf?_of_mem {s : String} :
    ∀ {l : List String}, s ∈ l → ∃ i, idxOf? s l = some i ∧ l[i]? = some s := by
  intro l
  induction l with
  | nil => intro h; cases h
  | cons x xs ih =>
    intro h
    by_cases hx : x = s
    · exact ⟨0, by simp [idxOf?, hx], by simp [hx]⟩
    · have hs : s ∈ xs := by
        rcases List.mem_cons.mp h with rfl | hmem
        · exact absurd rfl hx
        · exact hmem
      obtain ⟨i, hi, hg⟩ := ih hs
      exact ⟨i + 1, by simp [idxOf?, hx, hi], by simpa using hg⟩

theorem idxOf?_of_nodup :
    ∀ {l : List String}, l.Nodup → ∀ {i : Nat} {s : String},
      l[i]? = some s → idxOf? s l = some i := by
  intro l
  induction l with
  | nil => intro _ i s h; simp at h
  | cons x xs ih =>
    intro hnd i s h
    cases i with
    | zero =>
      rw [List.getElem?_cons_zero] at h
      cases h
      simp [idxOf?]
    | succ k =>
      rw [List.getElem?_cons_succ] at h
      have hs : s ∈ xs := getElem?_mem h
      have hx : ¬ x = s := by
        intro he
        subst he
        exact (List.nodup_cons.mp hnd).1 hs
      have hrec := ih (List.nodup_cons.mp hnd).2 h
      simp [idxOf?, hx, hrec]

theorem zip_replicate_map {x : Nat} :
    ∀ (b : List Nat), (List.replicate b.length x).zip b = b.map (fun y => (x, y)) := by
  intro b
  induction b with
  | nil => rfl
  | cons y ys ih =>
    rw [List.length_cons, List.replicate_succ, List.zip_cons_cons, ih, List.map_cons]

theorem cartesianProduct_eq_flatMap (a b : List Nat) :
    cartesianProduct a b = a.flatMap (fun x => b.map (fun y => (x, y))) := by
  induction a with
  | nil => simp [cartesianProduct, npRepeat, npTile]
  | cons x xs ih =>
    unfold cartesianProduct npRepeat npTile at ih ⊢
    rw [List.map_cons, List.flatten_cons, List.length_cons, List.replicate_succ,
      List.flatten_cons, List.zip_append (by simp), List.flatMap_cons, ih, zip_replicate_map]

theorem cartesianProduct_getElem? :
    ∀ {a : List Nat} (b : List Nat) {p q : Nat} {xa xb : Nat},
      a[p]? = some xa → b[q]? = some xb →
      (cartesianProduct a b)[p * b.length + q]? = some (xa, xb) := by
  intro a
  induction a with
  | nil => intro b p q xa xb hp _; simp at hp
  | cons x xs ih =>
    intro b p q xa xb hp hq
    rw [cartesianProduct_eq_flatMap, List.flatMap_cons]
    have hq2 : q < b.length := getElem?_lt_length hq
    cases p with
    | zero =>
      rw [List.getElem?_cons_zero] at hp
      cases hp
      rw [Nat.zero_mul, Nat.zero_add, List.getElem?_append_left (by simpa using hq2)]
      simp [List.getElem?_map, hq]
    | succ k =>
      rw [List.getElem?_cons_succ] at hp
      have harith : (k + 1) * b.length + q =
          (b.map (fun y => (x, y))).length + (k * b.length + q) := by
        simp
        ring
      rw [harith, List.getElem?_append_right (Nat.le_add_right _ _), Nat.add_sub_cancel_left,
        ← cartesianProduct_eq_flatMap]
      exact ih b hp hq

theorem rangeMap_getElem? {β : Type} {n : Nat} {g : Nat → β} {q : Nat} (hq : q < n) :
    ((List.range n).map g)[q]? = some (g q) := by
  simp [List.getElem?_map, List.getElem?_range hq]

theorem npReshape_getElem? {n1 n2 : Nat} {flat : List Int} {p : Nat} (hp : p < n1) :
    (npReshape n1 n2 flat)[p]? =
      some ((List.range n2).map (fun j => flat.getD (p * n2 + j) 0)) := by
  simp [npReshape, List.getElem?_map, List.getElem?_range hp]

/-! ## Additional helper lemmas -/

theorem npIndex_natCast {len k : Nat} (h : k < len) : npIndex len (k : Int) = some k := by
  unfold npIndex
  rw [if_pos (by omega), if_pos (by exact_mod_cast h)]
  simp

/-! ## Claim theorems -/

/-- C8: for every integer dense table of the correct shape, mode-1
construction fails with `OverflowSuspected` exactly when some entry equals the
maximum or minimum representable 32-bit integer after conversion to `int32`,
and succeeds past this check otherwise. -/
theorem c8_fromTable_sentinel_rejection (a1 a2 : Alphabet) (t : List (List Int))
    (h1 : t.length = a1.length) (h2 : ∀ r ∈ t, r.length = a2.length) :
    ((∃ r ∈ t, ∃ v ∈ r, toInt32Wrap v = INT32_MAX ∨ toInt32Wrap v = INT32_MIN) →
      fromTable a1 a2 t = .error .overflowSuspected) ∧
    ((¬ ∃ r ∈ t, ∃ v ∈ r, toInt32Wrap v = INT32_MAX ∨ toInt32Wrap v = INT32_MIN) →
      fromTable a1 a2 t = .ok ⟨a1, a2, t.map (fun r => r.map toInt32Wrap)⟩) := by
  have hcond :
      (∃ r ∈ t.map (fun r => r.map toInt32Wrap), ∃ v ∈ r, v = INT32_MAX ∨ v = INT32_MIN) ↔
      (∃ r ∈ t, ∃ v ∈ r, toInt32Wrap v = INT32_MAX ∨ toInt32Wrap v = INT32_MIN) := by
    constructor
    · rintro ⟨r, hr, v, hv, hor⟩
      obtain ⟨r0, hr0, rfl⟩ := List.mem_map.mp hr
      obtain ⟨v0, hv0, rfl⟩ := List.mem_map.mp hv
      exact ⟨r0, hr0, v0, hv0, hor⟩
    · rintro ⟨r, hr, v, hv, hor⟩
      exact ⟨r.map toInt32Wrap, List.mem_map_of_mem _ hr,
        toInt32Wrap v, List.mem_map_of_mem _ hv, hor⟩
  constructor
  · intro hsent
    unfold fromTable
    rw [if_pos ⟨h1, h2⟩, if_pos (hcond.mpr hsent)]
  · intro hsent
    unfold fromTable
    rw [if_pos ⟨h1, h2⟩, if_neg (fun hc => hsent (hcond.mp hc))]

/-- C8 witness: a 1×1 table containing `INT32_MAX` has the right shape and is
rejected with `OverflowSuspected`. -/
theorem c8_witness :
    ([[(2147483647 : Int)]].length = (⟨["A"]⟩ : Alphabet).length ∧
      ∀ r ∈ [[(2147483647 : Int)]], r.length = (⟨["A"]⟩ : Alphabet).length) ∧
    fromTable ⟨["A"]⟩ ⟨["A"]⟩ [[2147483647]] = .error .overflowSuspected :=
  ⟨⟨by decide, by decide⟩,
    (c8_fromTable_sentinel_rejection ⟨["A"]⟩ ⟨["A"]⟩ [[2147483647]]
      (by decide) (by decide)).1 (by decide)⟩

/-- C10: on a well-formed matrix, a negative row code `-m ≤ code1 < 0`
(with a valid column code) does not fail: it wraps Python-style to row
`m + code1`; symmetrically for a negative column code. -/
theorem c10_negative_code_wraps (M : SubstitutionMatrix) (code1 code2 : Int)
    (hwf : wellFormed M) :
    (-(M.alph1.length : Int) ≤ code1 → code1 < 0 →
      0 ≤ code2 → code2 < (M.alph2.length : Int) →
      ∃ v, get_score_by_code M code1 code2 = .ok v ∧
        tableGet? M.score_matrix ((M.alph1.length : Int) + code1).toNat code2.toNat = some v) ∧
    (0 ≤ code1 → code1 < (M.alph1.length : Int) →
      -(M.alph2.length : Int) ≤ code2 → code2 < 0 →
      ∃ v, get_score_by_code M code1 code2 = .ok v ∧
        tableGet? M.score_matrix code1.toNat ((M.alph2.length : Int) + code2).toNat = some v) := by
  obtain ⟨hlen, hwid, -⟩ := hwf
  constructor
  · intro h1 h2 h3 h4
    have hi : npIndex M.score_matrix.length code1 =
        some ((M.alph1.length : Int) + code1).toNat := by
      unfold npIndex
      rw [if_neg (by omega), if_pos (by rw [hlen]; exact h1)]
      rw [hlen]
    have hi2 : ((M.alph1.length : Int) + code1).toNat < M.score_matrix.length := by
      rw [hlen]
      omega
    obtain ⟨row, hrow⟩ :
        ∃ r, M.score_matrix[((M.alph1.length : Int) + code1).toNat]? = some r :=
      ⟨_, List.getElem?_eq_getElem hi2⟩
    have hrlen : row.length = M.alph2.length := hwid row (getElem?_mem hrow)
    have hj : npIndex row.length code2 = some code2.toNat := by
      unfold npIndex
      rw [if_pos h3, if_pos (by rw [hrlen]; exact h4)]
    have hj2 : code2.toNat < row.length := by
      rw [hrlen]
      omega
    obtain ⟨v, hv⟩ : ∃ v, row[code2.toNat]? = some v := ⟨_, List.getElem?_eq_getElem hj2⟩
    refine ⟨v, ?_, ?_⟩
    · unfold get_score_by_code
      simp only [hi, hrow, hj, hv]
    · unfold tableGet?
      rw [hrow]
      exact hv
  · intro h1 h2 h3 h4
    have hi : npIndex M.score_matrix.length code1 = some code1.toNat := by
      unfold npIndex
      rw [if_pos h1, if_pos (by rw [hlen]; exact h2)]
    have hi2 : code1.toNat < M.score_matrix.length := by
      rw [hlen]
      omega
    obtain ⟨row, hrow⟩ : ∃ r, M.score_matrix[code1.toNat]? = some r :=
      ⟨_, List.getElem?_eq_getElem hi2⟩
    have hrlen : row.length = M.alph2.length := hwid row (getElem?_mem hrow)
    have hj : npIndex row.length code2 = some ((M.alph2.length : Int) + code2).toNat := by
      unfold npIndex
      rw [if_neg (by omega), if_pos (by rw [hrlen]; exact h3)]
      rw [hrlen]
    have hj2 : ((M.alph2.length : Int) + code2).toNat < row.length := by
      rw [hrlen]
      omega
    obtain ⟨v, hv⟩ : ∃ v, row[((M.alph2.length : Int) + code2).toNat]? = some v :=
      ⟨_, List.getElem?_eq_getElem hj2⟩
    refine ⟨v, ?_, ?_⟩
    · unfold get_score_by_code
      simp only [hi, hrow, hj, hv]
    · unfold tableGet?
      rw [hrow]
      exact hv

/-- C10 witness: on the sample 2×2 matrix, code `-1` with column `0` yields
the entry of row `2 + (-1) = 1`. -/
theorem c10_witness :
    wellFormed sampleMatrix ∧
    ∃ v, get_score_by_code sampleMatrix (-1) 0 = .ok v ∧
      tableGet? sampleMatrix.score_matrix
        ((sampleMatrix.alph1.length : Int) + (-1)).toNat (0 : Int).toNat = some v :=
  ⟨by decide,
    (c10_negative_code_wraps sampleMatrix (-1) 0 (by decide)).1
      (by decide) (by decide) (by decide) (by decide)⟩

/-- C7: `is_symmetric` returns true iff the two alphabets are structurally
equal and the score table equals its own transpose element-wise. -/
theorem c7_is_symmetric_iff (M : SubstitutionMatrix) (hwf : wellFormed M) :
    is_symmetric M = true ↔
      (M.alph1 = M.alph2 ∧
        ∀ (i j : Nat), i < M.alph1.length → j < M.alph2.length →
          tableGet? M.score_matrix i j = tableGet? M.score_matrix j i) := by
  obtain ⟨hlen, hwid, -⟩ := hwf
  unfold is_symmetric
  rw [Bool.and_eq_true, decide_eq_true_iff, decide_eq_true_iff]
  constructor
  · rintro ⟨halph, htab⟩
    refine ⟨halph, ?_⟩
    intro i j hi hj
    have hmn : M.alph1.length = M.alph2.length := by rw [halph]
    cases ht : M.score_matrix with
    | nil =>
      have : M.alph1.length = 0 := by rw [← hlen, ht]; rfl
      omega
    | cons r rest =>
      have hwidth : widthOf M.score_matrix = M.alph2.length := by
        unfold widthOf
        rw [ht]
        exact hwid r (by rw [ht]; exact List.mem_cons_self r rest)
      rw [← ht]
      have step1 : tableGet? M.score_matrix i j =
          tableGet? (npTranspose M.score_matrix M.alph2.length) i j := by
        rw [← hwidth, ← htab]
      rw [step1, tableGet?_npTranspose hwid (by omega)]
  · rintro ⟨halph, hsym⟩
    have hmn : M.alph1.length = M.alph2.length := by rw [halph]
    refine ⟨halph, ?_⟩
    cases ht : M.score_matrix with
    | nil =>
      have h0 : M.alph2.length = 0 := by rw [← hmn, ← hlen, ht]; rfl
      have hw0 : widthOf ([] : List (List Int)) = 0 := rfl
      rw [hw0]
      unfold npTranspose
      rfl
    | cons r rest =>
      have hwidth : widthOf M.score_matrix = M.alph2.length := by
        unfold widthOf
        rw [ht]
        exact hwid r (by rw [ht]; exact List.mem_cons_self r rest)
      rw [← ht, hwidth]
      apply List.ext_getElem?
      intro k
      by_cases hk : k < M.alph2.length
      · rw [npTranspose_getElem? hk]
        have hkt : k < M.score_matrix.length := by rw [hlen]; omega
        obtain ⟨rowk, hrowk⟩ : ∃ r, M.score_matrix[k]? = some r :=
          ⟨_, List.getElem?_eq_getElem hkt⟩
        rw [hrowk]
        congr 1
        apply List.ext_getElem?
        intro q
        rw [(colAt_spec hwid hk).2 q]
        by_cases hq : q < M.score_matrix.length
        · have h1 : rowk[q]? = tableGet? M.score_matrix k q := by
            unfold tableGet?
            rw [hrowk]
            rfl
          have h2 : tableGet? M.score_matrix k q = tableGet? M.score_matrix q k := by
            rw [hsym q k (by rw [← hlen]; omega) hk]
          rw [h1, h2]
          unfold tableGet?
          rfl
        · have hnone1 : M.score_matrix[q]? = none :=
            List.getElem?_eq_none (Nat.le_of_not_lt hq)
          have hrk : rowk.length = M.alph2.length := hwid rowk (getElem?_mem hrowk)
          have hnone2 : rowk[q]? = none := by
            apply List.getElem?_eq_none
            rw [hrk, ← hmn, ← hlen]
            exact Nat.le_of_not_lt hq
          rw [hnone1, hnone2]
          rfl
      · have h1 : M.score_matrix[k]? = none := by
          apply List.getElem?_eq_none
          rw [hlen]
          omega
        have h2 : (npTranspose M.score_matrix M.alph2.length)[k]? = none := by
          apply List.getElem?_eq_none
          rw [npTranspose_length]
          omega
        rw [h1, h2]

/-- C7 witness: the sample matrix is well-formed, and the equivalence applies
to it. -/
theorem c7_witness :
    wellFormed sampleMatrix ∧
    (is_symmetric sampleMatrix = true ↔
      (sampleMatrix.alph1 = sampleMatrix.alph2 ∧
        ∀ (i j : Nat), i < sampleMatrix.alph1.length → j < sampleMatrix.alph2.length →
          tableGet? sampleMatrix.score_matrix i j = tableGet? sampleMatrix.score_matrix j i)) :=
  ⟨by decide, c7_is_symmetric_iff sampleMatrix (by decide)⟩

/-- C6: when `transpose` succeeds on a well-formed matrix, the result swaps
the two alphabets, transposes the score table, and satisfies
`transpose().get_score(b, a) = original.get_score(a, b)` for all valid
symbols. -/
theorem c6_transpose_swaps_and_preserves (M Mt : SubstitutionMatrix) (hwf : wellFormed M)
    (h : M.transpose = .ok Mt) :
    Mt.alph1 = M.alph2 ∧ Mt.alph2 = M.alph1 ∧
    Mt.score_matrix = npTranspose M.score_matrix M.alph2.length ∧
    ∀ (a b : String), a ∈ M.alph1.symbols → b ∈ M.alph2.symbols →
      get_score Mt b a = get_score M a b := by
  obtain ⟨hlen, hwid, hrange⟩ := hwf
  unfold SubstitutionMatrix.transpose at h
  obtain ⟨hM, -, -, -⟩ := fromTable_ok h
  have hTrange : ∀ r ∈ npTranspose M.score_matrix M.alph2.length, ∀ v ∈ r, inInt32Range v := by
    intro r hr v hv
    unfold npTranspose at hr
    obtain ⟨j, -, rfl⟩ := List.mem_map.mp hr
    unfold colAt at hv
    obtain ⟨row, hrow, hvj⟩ := List.mem_filterMap.mp hv
    exact hrange row hrow v (getElem?_mem hvj)
  have hwrap := wrapTable_eq_self hTrange
  subst hM
  refine ⟨rfl, rfl, hwrap, ?_⟩
  intro a b ha hb
  obtain ⟨i, hia, hga⟩ := idxOf?_of_mem ha
  obtain ⟨j, hjb, hgb⟩ := idxOf?_of_mem hb
  have hjlt : j < M.alph2.length := getElem?_lt_length hgb
  have htr := tableGet?_npTranspose hwid hjlt (i := i)
  simp only [get_score, Alphabet.encode, hia, hjb, hwrap, htr]

/-- C6 witness: the transpose of the sample rectangular matrix swaps the
alphabets and preserves the scores of a concrete symbol pair. -/
theorem c6_witness :
    wellFormed sampleRectMatrix ∧
    (sampleRectMatrix.transpose = .ok ⟨⟨["C", "D"]⟩, ⟨["A", "B"]⟩, [[1, 3], [2, 4]]⟩) ∧
    ∀ (a b : String), a ∈ sampleRectMatrix.alph1.symbols → b ∈ sampleRectMatrix.alph2.symbols →
      get_score (⟨⟨["C", "D"]⟩, ⟨["A", "B"]⟩, [[1, 3], [2, 4]]⟩ : SubstitutionMatrix) b a =
        get_score sampleRectMatrix a b :=
  ⟨by decide, by decide,
    (c6_transpose_swaps_and_preserves sampleRectMatrix
      ⟨⟨["C", "D"]⟩, ⟨["A", "B"]⟩, [[1, 3], [2, 4]]⟩ (by decide) (by decide)).2.2.2⟩

/-- C9 (amended): a pairing map missing any combination always fails
construction (never a silent default), and construction succeeds only when
the map is total over the alphabet product. -/
theorem c9_fromDict_requires_totality (a1 a2 : Alphabet) (d : PairingMap) :
    (∀ s1 s2 : String, s1 ∈ a1.symbols → s2 ∈ a2.symbols → dictGet? d (s1, s2) = none →
      ∃ e, fromDict a1 a2 d = .error e) ∧
    (∀ M : SubstitutionMatrix, fromDict a1 a2 d = .ok M →
      ∀ s1 ∈ a1.symbols, ∀ s2 ∈ a2.symbols, ∃ v, dictGet? d (s1, s2) = some v) := by
  have hpart2 : ∀ M : SubstitutionMatrix, fromDict a1 a2 d = .ok M →
      ∀ s1 ∈ a1.symbols, ∀ s2 ∈ a2.symbols, ∃ v, dictGet? d (s1, s2) = some v := by
    intro M hM s1 hs1 s2 hs2
    obtain ⟨i, hi⟩ := mem_getElem? hs1
    obtain ⟨j, hj⟩ := mem_getElem? hs2
    obtain ⟨v, hcell, -⟩ := fromDict_cell hM (getElem?_lt_length hi) (getElem?_lt_length hj)
    obtain ⟨s1b, s2b, hd1, hd2, hdg, -⟩ := fillCell_ok hcell
    unfold Alphabet.decode at hd1 hd2
    rw [hi] at hd1
    rw [hj] at hd2
    cases hd1
    cases hd2
    exact ⟨v, hdg⟩
  refine ⟨?_, hpart2⟩
  intro s1 s2 hs1 hs2 hnone
  cases hfd : fromDict a1 a2 d with
  | error e => exact ⟨e, rfl⟩
  | ok M =>
    obtain ⟨v, hv⟩ := hpart2 M hfd s1 hs1 s2 hs2
    rw [hnone] at hv
    exact Option.noConfusion hv

/-- C9 counterexample: for the pairing map `{(A, B): 2^31}` over alphabets
`[A]` and `[B, C]`, the combination `(A, C)` is missing, yet construction
fails with the overflow error of the earlier cell `(A, B)` rather than with
the missing-pairing (`KeyError`) failure the claim requires. -/
theorem c9_counterexample :
    dictGet? [(("A", "B"), 2147483648)] ("A", "C") = none ∧
    fromDict ⟨["A"]⟩ ⟨["B", "C"]⟩ [(("A", "B"), 2147483648)] =
      .error (.valueOverflow 2147483648) ∧
    ∀ p1 p2 : String, fromDict ⟨["A"]⟩ ⟨["B", "C"]⟩ [(("A", "B"), 2147483648)] ≠
      .error (.missingPairing p1 p2) := by
  refine ⟨by decide, by decide, ?_⟩
  intro p1 p2 h
  have hval : fromDict ⟨["A"]⟩ ⟨["B", "C"]⟩ [(("A", "B"), 2147483648)] =
      .error (.valueOverflow 2147483648) := by decide
  rw [hval] at h
  simp at h

/-- C9 witness: a concrete incomplete pairing map fails construction. -/
theorem c9_witness :
    dictGet? [(("A", "B"), 5)] ("A", "C") = none ∧
    ∃ e, fromDict ⟨["A"]⟩ ⟨["B", "C"]⟩ [(("A", "B"), 5)] = .error e :=
  ⟨by decide,
    (c9_fromDict_requires_totality ⟨["A"]⟩ ⟨["B", "C"]⟩ [(("A", "B"), 5)]).1
      "A" "C" (by decide) (by decide) (by decide)⟩

/-- C4 (amended): in mode 2 every score stored in the matrix is a
representable 32-bit value, and a pairing-map value outside the `int32` range
always aborts construction; unlike mode 1, the boundary (sentinel) values
themselves are representable and accepted. -/
theorem c4_fromDict_int32_coercion (a1 a2 : Alphabet) (d : PairingMap) :
    (∀ M : SubstitutionMatrix, fromDict a1 a2 d = .ok M →
      ∀ r ∈ M.score_matrix, ∀ v ∈ r, inInt32Range v) ∧
    (∀ (s1 s2 : String) (v : Int), s1 ∈ a1.symbols → s2 ∈ a2.symbols →
      dictGet? d (s1, s2) = some v → ¬ inInt32Range v →
      ∃ e, fromDict a1 a2 d = .error e) := by
  refine ⟨?_, ?_⟩
  · intro M hM r hr v hv
    obtain ⟨-, -, hfill⟩ := fromDict_ok_fill hM
    unfold fillWithMatrixDict at hfill
    obtain ⟨i, -, hrowok⟩ := exceptMapList_mem_of_ok hfill hr
    obtain ⟨j, -, hcell⟩ := exceptMapList_mem_of_ok hrowok hv
    obtain ⟨-, -, -, -, -, hin⟩ := fillCell_ok hcell
    exact hin
  · intro s1 s2 v hs1 hs2 hdg hnin
    cases hfd : fromDict a1 a2 d with
    | error e => exact ⟨e, rfl⟩
    | ok M =>
      obtain ⟨i, hi⟩ := mem_getElem? hs1
      obtain ⟨j, hj⟩ := mem_getElem? hs2
      obtain ⟨w, hcell, -⟩ := fromDict_cell hfd (getElem?_lt_length hi) (getElem?_lt_length hj)
      obtain ⟨s1b, s2b, hd1, hd2, hdgb, hinb⟩ := fillCell_ok hcell
      unfold Alphabet.decode at hd1 hd2
      rw [hi] at hd1
      rw [hj] at hd2
      cases hd1
      cases hd2
      rw [hdg] at hdgb
      cases hdgb
      exact absurd hinb hnin

/-- C4 counterexample: the reserved sentinel `INT32_MAX` is representable, so
mode 2 accepts it while mode 1 rejects the very same score table — the
pairing-map path does not fail "in the same way as the dense-table path" on
sentinel values. -/
theorem c4_counterexample :
    fromDict ⟨["A"]⟩ ⟨["B"]⟩ [(("A", "B"), 2147483647)] =
      .ok ⟨⟨["A"]⟩, ⟨["B"]⟩, [[2147483647]]⟩ ∧
    fromTable ⟨["A"]⟩ ⟨["B"]⟩ [[2147483647]] = .error .overflowSuspected := by
  constructor <;> decide

/-- C4 witness: a value beyond the `int32` range in the pairing map aborts
construction. -/
theorem c4_witness :
    dictGet? [(("A", "B"), 4294967296)] ("A", "B") = some 4294967296 ∧
    ∃ e, fromDict ⟨["A"]⟩ ⟨["B"]⟩ [(("A", "B"), 4294967296)] = .error e :=
  ⟨by decide,
    (c4_fromDict_int32_coercion ⟨["A"]⟩ ⟨["B"]⟩ [(("A", "B"), 4294967296)]).2
      "A" "B" 4294967296 (by decide) (by decide) (by decide) (by decide)⟩

/-- C5 (amended): whenever parsing succeeds, all data lines carry the same
number of score tokens and every score token is a valid integer literal —
inconsistent token counts and non-integer tokens are always rejected.  A
uniform count different from the header length (in particular extra tokens)
is not always rejected. -/
theorem c5_parse_success_conditions (s : String) (d : PairingMap)
    (h : dict_from_str s = .ok d) :
    (∀ r1 ∈ scoreRows s, ∀ r2 ∈ scoreRows s, r1.length = r2.length) ∧
    (∀ r ∈ scoreRows s, ∀ t ∈ r, ∃ v, parseIntToken t = .ok v) := by
  unfold dict_from_str at h
  cases hpre : preprocessLines s with
  | nil => rw [hpre] at h; exact Except.noConfusion h
  | cons header dataLines =>
    rw [hpre] at h
    dsimp only at h
    have hrows : scoreRows s = dataLines.map (fun l => (splitWS l).tail) := by
      unfold scoreRows
      rw [hpre]
    rw [hrows]
    split at h
    case isTrue hall =>
      cases htok : exceptMapList (fun r => exceptMapList parseIntToken r)
          (dataLines.map (fun l => (splitWS l).tail)) with
      | error e => rw [htok] at h; exact Except.noConfusion h
      | ok scores =>
        refine ⟨?_, ?_⟩
        · intro r1 h1 r2 h2
          have e1 := of_decide_eq_true (List.all_eq_true.mp hall r1 h1)
          have e2 := of_decide_eq_true (List.all_eq_true.mp hall r2 h2)
          rw [e1, e2]
        · intro r hr t ht
          obtain ⟨row, hrowok⟩ := exceptMapList_ok_of_mem htok hr
          exact exceptMapList_ok_of_mem hrowok ht
    case isFalse hall => exact Except.noConfusion h

/-- C5 counterexample: with header symbols `A B` (so `n = 2`), both data
lines carry 3 score tokens — more than `n` — yet parsing succeeds instead of
failing, silently accepting the extra tokens. -/
theorem c5_counterexample :
    (scoreRows "A B\nX 1 2 3\nY 4 5 6").all (fun r => r.length = 3) = true ∧
    dict_from_str "A B\nX 1 2 3\nY 4 5 6" =
      .ok [(("X", "A"), 1), (("X", "B"), 4), (("Y", "A"), 2), (("Y", "B"), 5)] := by
  constructor <;> decide

/-- C5 witness: the success conditions hold for a concretely parsed text. -/
theorem c5_witness :
    (dict_from_str "A B\nX 1 2\nY 3 4").isOk = true ∧
    ∀ r ∈ scoreRows "A B\nX 1 2\nY 3 4", ∀ t ∈ r, ∃ v, parseIntToken t = .ok v :=
  ⟨by decide,
    (c5_parse_success_conditions "A B\nX 1 2\nY 3 4"
      [(("X", "A"), 1), (("X", "B"), 3), (("Y", "A"), 2), (("Y", "B"), 4)] (by decide)).2⟩

/-- C2 evaluation at the failing input `"A B\nX 1 2\nY 3 4"`: the claim
requires the entry for `(X, B)` (row symbol `X` = line 0, column symbol `B` =
token 1) to be that line's second score token, `2`; because the code
transposes the parsed score array before the dictionary loop, the entry
actually stored is `3`, the first token of the second line. -/
theorem c2_dict_from_str_transposes_entries :
    dict_from_str "A B\nX 1 2\nY 3 4" =
      .ok [(("X", "A"), 1), (("X", "B"), 3), (("Y", "A"), 2), (("Y", "B"), 4)] ∧
    (dict_from_str "A B\nX 1 2\nY 3 4").map (fun d => dictGet? d ("X", "B")) ≠
      .ok (some 2) := by
  constructor <;> decide

/-- C1 evaluation at the failing input: `sampleMatrix` is built from a pairing
map, but serialising it and re-parsing yields the transposed matrix, which is
not structurally equal to the original — the round-trip law fails. -/
theorem c1_roundtrip_fails :
    fromDict ⟨["A", "B"]⟩ ⟨["A", "B"]⟩ samplePairingMap = .ok sampleMatrix ∧
    roundTrip sampleMatrix = .ok ⟨⟨["A", "B"]⟩, ⟨["A", "B"]⟩, [[1, 3], [2, 4]]⟩ ∧
    roundTrip sampleMatrix ≠ .ok sampleMatrix := by
  refine ⟨by decide, by decide, ?_⟩
  decide

/-- C3: whenever `as_positional` returns a positional matrix for sequences
over the matrix's alphabets, the positional matrix satisfies
`pos.get_score_by_code(p, q) = M.get_score(s1[p], s2[q])` for every valid
position pair `(p, q)`. -/
theorem c3_as_positional_equivalence (M : SubstitutionMatrix) (s1 s2 : Sequence)
    (pos : SubstitutionMatrix) (ps1 ps2 : Sequence)
    (hwf : wellFormed M)
    (hnd1 : M.alph1.symbols.Nodup) (hnd2 : M.alph2.symbols.Nodup)
    (ha1 : s1.alphabet = M.alph1) (ha2 : s2.alphabet = M.alph2)
    (hok : as_positional M s1 s2 = .ok (pos, ps1, ps2))
    (p q : Nat) (hp : p < s1.code.length) (hq : q < s2.code.length) :
    ∃ sym1 sym2 v, s1.symbolAt p = some sym1 ∧ s2.symbolAt q = some sym2 ∧
      get_score_by_code pos (p : Int) (q : Int) = .ok v ∧
      get_score M sym1 sym2 = .ok v := by
  obtain ⟨hlen, hwid, hrange⟩ := hwf
  unfold as_positional at hok
  dsimp only at hok
  split at hok
  next e heq => exact Except.noConfusion hok
  next flat heq =>
    split at hok
    next e heq2 => exact Except.noConfusion hok
    next pm heq2 =>
      rw [Except.ok.injEq, Prod.mk.injEq, Prod.mk.injEq] at hok
      obtain ⟨rfl, -, -⟩ := hok
      obtain ⟨c1, hc1⟩ : ∃ c, s1.code[p]? = some c := ⟨_, List.getElem?_eq_getElem hp⟩
      obtain ⟨c2, hc2⟩ : ∃ c, s2.code[q]? = some c := ⟨_, List.getElem?_eq_getElem hq⟩
      have hpair := cartesianProduct_getElem? s2.code hc1 hc2
      obtain ⟨y, hflatk, hfpair⟩ := (exceptMapList_ok heq).2.1 _ _ hpair
      have htab : tableGet? M.score_matrix c1 c2 = some y := by
        cases htg : tableGet? M.score_matrix c1 c2 with
        | none => rw [htg] at hfpair; exact Except.noConfusion hfpair
        | some w =>
          rw [htg] at hfpair
          cases hfpair
          rfl
      have hc1t : c1 < M.score_matrix.length := by
        cases hrow0 : M.score_matrix[c1]? with
        | none =>
          unfold tableGet? at htab
          rw [hrow0] at htab
          exact Option.noConfusion htab
        | some row => exact getElem?_lt_length hrow0
      obtain ⟨row, hrow⟩ : ∃ r, M.score_matrix[c1]? = some r :=
        ⟨_, List.getElem?_eq_getElem hc1t⟩
      have hrowj : row[c2]? = some y := by
        unfold tableGet? at htab
        rw [hrow] at htab
        exact htab
      have hc2r : c2 < row.length := getElem?_lt_length hrowj
      have hrlen : row.length = M.alph2.length := hwid row (getElem?_mem hrow)
      have hc1a : c1 < M.alph1.symbols.length := by
        have h0 := hc1t
        rw [hlen] at h0
        exact h0
      have hc2a : c2 < M.alph2.symbols.length := by
        have h0 := hc2r
        rw [hrlen] at h0
        exact h0
      obtain ⟨sym1, hsym1g⟩ : ∃ s, M.alph1.symbols[c1]? = some s :=
        ⟨_, List.getElem?_eq_getElem hc1a⟩
      obtain ⟨sym2, hsym2g⟩ : ∃ s, M.alph2.symbols[c2]? = some s :=
        ⟨_, List.getElem?_eq_getElem hc2a⟩
      have hidx1 : idxOf? sym1 M.alph1.symbols = some c1 := idxOf?_of_nodup hnd1 hsym1g
      have hidx2 : idxOf? sym2 M.alph2.symbols = some c2 := idxOf?_of_nodup hnd2 hsym2g
      have hflatrange : ∀ v ∈ flat, inInt32Range v := by
        intro v hv
        obtain ⟨pr, -, hfpr⟩ := exceptMapList_mem_of_ok heq hv
        cases htg : tableGet? M.score_matrix pr.1 pr.2 with
        | none => rw [htg] at hfpr; exact Except.noConfusion hfpr
        | some w =>
          rw [htg] at hfpr
          cases hfpr
          have hp1 : pr.1 < M.score_matrix.length := by
            cases hrow0 : M.score_matrix[pr.1]? with
            | none =>
              unfold tableGet? at htg
              rw [hrow0] at htg
              exact Option.noConfusion htg
            | some r2 => exact getElem?_lt_length hrow0
          obtain ⟨r2, hr2⟩ : ∃ r, M.score_matrix[pr.1]? = some r :=
            ⟨_, List.getElem?_eq_getElem hp1⟩
          have hrj : r2[pr.2]? = some v := by
            unfold tableGet? at htg
            rw [hr2] at htg
            exact htg
          exact hrange r2 (getElem?_mem hr2) v (getElem?_mem hrj)
      obtain ⟨hpm, -, -, -⟩ := fromTable_ok heq2
      have hresh : ∀ r ∈ npReshape s1.code.length s2.code.length flat,
          ∀ v ∈ r, inInt32Range v := by
        intro r hr v hv
        unfold npReshape at hr
        obtain ⟨i, -, rfl⟩ := List.mem_map.mp hr
        obtain ⟨j, -, rfl⟩ := List.mem_map.mp hv
        rw [List.getD_eq_getElem?_getD]
        cases hfk : flat[i * s2.code.length + j]? with
        | none => decide
        | some w => exact hflatrange w (getElem?_mem hfk)
      have hwrapR := wrapTable_eq_self hresh
      have hpmscore : pm.score_matrix = npReshape s1.code.length s2.code.length flat := by
        rw [hpm]
        exact hwrapR
      have hn1 : pm.score_matrix.length = s1.code.length := by
        rw [hpmscore]
        unfold npReshape
        simp
      refine ⟨sym1, sym2, y, ?_, ?_, ?_, ?_⟩
      · unfold Sequence.symbolAt
        rw [ha1]
        unfold Alphabet.decode
        rw [List.getD_eq_getElem?_getD, hc1]
        exact hsym1g
      · unfold Sequence.symbolAt
        rw [ha2]
        unfold Alphabet.decode
        rw [List.getD_eq_getElem?_getD, hc2]
        exact hsym2g
      · unfold get_score_by_code
        have h1 : npIndex pm.score_matrix.length (p : Int) = some p := by
          rw [hn1]
          exact npIndex_natCast hp
        have h2 : pm.score_matrix[p]? =
            some ((List.range s2.code.length).map
              (fun j => flat.getD (p * s2.code.length + j) 0)) := by
          rw [hpmscore]
          exact npReshape_getElem? hp
        have hrowlen : ((List.range s2.code.length).map
            (fun j => flat.getD (p * s2.code.length + j) 0)).length = s2.code.length := by
          simp
        have h3 : npIndex ((List.range s2.code.length).map
            (fun j => flat.getD (p * s2.code.length + j) 0)).length (q : Int) = some q := by
          rw [hrowlen]
          exact npIndex_natCast hq
        simp only [h1, h2, h3, rangeMap_getElem? hq]
        rw [List.getD_eq_getElem?_getD, hflatk]
        rfl
      · unfold get_score Alphabet.encode
        simp only [hidx1, hidx2, htab]

/-- C3 witness: the positional transformation of the sample rectangular
matrix with concrete sequences satisfies the score equivalence at `(0, 1)`. -/
theorem c3_witness :
    wellFormed sampleRectMatrix ∧
    as_positional sampleRectMatrix sampleSeq1 sampleSeq2 =
      .ok (⟨positionalAlphabet 3, positionalAlphabet 2, [[2, 1], [4, 3], [2, 1]]⟩,
        ⟨positionalAlphabet 3, [0, 1, 2]⟩, ⟨positionalAlphabet 2, [0, 1]⟩) ∧
    ∃ sym1 sym2 v, sampleSeq1.symbolAt 0 = some sym1 ∧ sampleSeq2.symbolAt 1 = some sym2 ∧
      get_score_by_code
        (⟨positionalAlphabet 3, positionalAlphabet 2, [[2, 1], [4, 3], [2, 1]]⟩ :
          SubstitutionMatrix) ((0 : Nat) : Int) ((1 : Nat) : Int) = .ok v ∧
      get_score sampleRectMatrix sym1 sym2 = .ok v :=
  ⟨by decide, by decide,
    c3_as_positional_equivalence sampleRectMatrix sampleSeq1 sampleSeq2
      ⟨positionalAlphabet 3, positionalAlphabet 2, [[2, 1], [4, 3], [2, 1]]⟩
      ⟨positionalAlphabet 3, [0, 1, 2]⟩ ⟨positionalAlphabet 2, [0, 1]⟩
      (by decide) (by decide) (by decide) (by decide) (by decide) (by decide)
      0 1 (by decide) (by decide)⟩
